import Mathlib

/-!
Verification of the routing core of the `router` repository
(`internal/tree/tree.go`, `internal/naming`, `router.go`, `group.go`,
`context.go`): a per-HTTP-method trie over path segments with literal,
`:param` and `*wildcard` segment kinds, plus the middleware-composition
and dispatch pipeline built around it.

Go strings are modelled as Lean `String`, Go `map[string]V` as
association lists mutated only through `mapSet` / `mapDel` (Go map
update / delete semantics), and Go's mutable per-request parameter map
as an explicitly threaded association list.  Fallible construction
(`Tree.AddRoute` returning `error`, `handle` panicking on that error)
is modelled with `Except String`.
-/

namespace GoRouter

/-! ### Go standard-library string operations used by the source -/

/-- Go `strings.Trim(s, "/")`: remove all leading and trailing `/`. -/
def trimSlashes (s : String) : String :=
  String.mk (((s.data.dropWhile (· = '/')).reverse.dropWhile (· = '/')).reverse)

/-- Accumulator-style core of Go `strings.Split(s, "/")`. -/
def splitAux : List Char → List Char → List String
  | [], acc => [String.mk acc.reverse]
  | c :: cs, acc =>
    if c = '/' then String.mk acc.reverse :: splitAux cs []
    else splitAux cs (c :: acc)

/-- Go `strings.Split(s, "/")` (nonempty separator): `""` yields `[""]`,
and every `/` produces a boundary, so `n` slashes yield `n+1` parts. -/
def splitSlash (s : String) : List String :=
  splitAux s.data []

/-- Go `strings.Join(xs, sep)`. -/
def joinSep (sep : String) : List String → String
  | [] => ""
  | [x] => x
  | x :: xs => x ++ sep ++ joinSep sep xs

/-! ### Go `map[string]V` as an association list

The source only ever touches its maps through indexing, assignment and
`delete`, so an association list with first-occurrence update is an
exact model; keys stay unique because every entry is produced by
`mapSet`. -/

/-- Go map read `m[k]` (comma-ok form). -/
def mapGet {α : Type} (m : List (String × α)) (k : String) : Option α :=
  match m with
  | [] => none
  | (k', v) :: rest => if k' = k then some v else mapGet rest k

/-- Go map write `m[k] = v`: overwrite the existing entry, else append. -/
def mapSet {α : Type} (m : List (String × α)) (k : String) (v : α) :
    List (String × α) :=
  match m with
  | [] => [(k, v)]
  | (k', v') :: rest =>
    if k' = k then (k, v) :: rest else (k', v') :: mapSet rest k v

/-- Go `delete(m, k)`. -/
def mapDel {α : Type} (m : List (String × α)) (k : String) :
    List (String × α) :=
  match m with
  | [] => []
  | (k', v') :: rest =>
    if k' = k then mapDel rest k else (k', v') :: mapDel rest k

/-! ### The route trie (`internal/tree/tree.go`) -/

/-- `tree.NodeType`: the three segment kinds. -/
inductive NodeType where
  | Static
  | Param
  | Wildcard
deriving DecidableEq

/-- `tree.Node`.  The handler and middleware element types are kept
abstract (`H`, `M`), mirroring the Go `interface{}` storage. -/
inductive Node (H M : Type) : Type where
  | mk : (path : String) → (nType : NodeType) → (pattern : String) →
      (handlers : List (String × H)) → (children : List (Node H M)) →
      (paramName : String) → (middleware : List M) → Node H M

/-- Field `Node.Path`. -/
def Node.path {H M : Type} : Node H M → String
  | .mk p _ _ _ _ _ _ => p

/-- Field `Node.NType`. -/
def Node.nType {H M : Type} : Node H M → NodeType
  | .mk _ t _ _ _ _ _ => t

/-- Field `Node.Pattern`. -/
def Node.pattern {H M : Type} : Node H M → String
  | .mk _ _ pat _ _ _ _ => pat

/-- Field `Node.Handlers`. -/
def Node.handlers {H M : Type} : Node H M → List (String × H)
  | .mk _ _ _ hs _ _ _ => hs

/-- Field `Node.Children`. -/
def Node.children {H M : Type} : Node H M → List (Node H M)
  | .mk _ _ _ _ cs _ _ => cs

/-- Field `Node.ParamName`. -/
def Node.paramName {H M : Type} : Node H M → String
  | .mk _ _ _ _ _ pn _ => pn

/-- Field `Node.Middleware`. -/
def Node.middleware {H M : Type} : Node H M → List M
  | .mk _ _ _ _ _ _ mw => mw

/-- Replace the children of a node (Go mutates `current.Children`). -/
def Node.withChildren {H M : Type} : Node H M → List (Node H M) → Node H M
  | .mk p t pat hs _ pn mw, cs => .mk p t pat hs cs pn mw

/-- `tree.Tree`: one root node per HTTP method. -/
structure Tree (H M : Type) : Type where
  roots : List (String × Node H M)

/-- `tree.New()`. -/
def Tree.new {H M : Type} : Tree H M := ⟨[]⟩

/-- The route-parameter map built during lookup (`map[string]string`). -/
abbrev Params := List (String × String)

/-! ### Lookup (`tree.go` `search` / `Tree.Find` / `Tree.HasMethod`)

Go's `search` mutates the shared `params` map; here the map is threaded
explicitly: every call returns the (possibly mutated) map alongside the
result, exactly reproducing which mutations persist across failed
alternatives (a failed `Param` attempt deletes its binding, a failed
`Wildcard` attempt keeps it, mutations inside a failed `Static` subtree
persist as the same shared map is reused). -/

mutual

/-- `tree.go` `search`: if all segments are consumed, succeed iff this
node has a handler for the method; otherwise scan the children in
recorded order.  `segments[index]` is always in bounds when read by the
source; the out-of-range default `""` is never reached. -/
def search {H M : Type} : Node H M → List String → Nat → Params → String →
    Option (H × List M) × Params
  | .mk _ _ _ hs cs _ mw, segments, index, params, method =>
    if index = segments.length then
      match mapGet hs method with
      | some h => (some (h, mw), params)
      | none => (none, params)
    else
      searchChildren cs segments index params method

/-- The `for _, child := range n.Children` loop of `search`, with its
three cases and early returns. -/
def searchChildren {H M : Type} : List (Node H M) → List String → Nat →
    Params → String → Option (H × List M) × Params
  | [], _, _, params, _ => (none, params)
  | child :: rest, segments, index, params, method =>
    let segment := segments.getD index ""
    match child.nType with
    | NodeType.Static =>
      if child.path = segment then
        match search child segments (index + 1) params method with
        | (some f, p') => (some f, p')
        | (none, p') => searchChildren rest segments index p' method
      else
        searchChildren rest segments index params method
    | NodeType.Param =>
      match search child segments (index + 1)
          (mapSet params child.paramName segment) method with
      | (some f, p') => (some f, p')
      | (none, p') =>
        searchChildren rest segments index (mapDel p' child.paramName) method
    | NodeType.Wildcard =>
      let p1 := mapSet params child.paramName
        (joinSep "/" (segments.drop index))
      match mapGet child.handlers method with
      | some h => (some (h, child.middleware), p1)
      | none => searchChildren rest segments index p1 method

end

/-- `Tree.Find(method, path)`: root lookup, `/` special case, else trim,
split and search; the handler is `none` on no match (Go `nil`). -/
def Tree.find {H M : Type} (t : Tree H M) (method path : String) :
    Option H × Params × List M :=
  match mapGet t.roots method with
  | none => (none, [], [])
  | some root =>
    if path = "/" then
      match mapGet root.handlers method with
      | some h => (some h, [], root.middleware)
      | none => (none, [], [])
    else
      let segments := splitSlash (trimSlashes path)
      match search root segments 0 [] method with
      | (some (h, mw), params) => (some h, params, mw)
      | (none, params) => (none, params, [])

/-- `Tree.HasMethod(path)`: does any registered method's tree match the
path?  Go ranges over the map; existence is order-independent. -/
def Tree.hasMethod {H M : Type} (t : Tree H M) (path : String) : Bool :=
  t.roots.any fun mr => (Option.isSome (t.find mr.1 path).1)

/-! ### Construction (`tree.go` `Tree.AddRoute`) -/

/-- Segment classification done at the top of the insertion loop:
`:x` is `Param` binding `x`, `*x` is `Wildcard` binding `x`, anything
else (including `""`) is `Static`. -/
def segKind (segment : String) : NodeType × String :=
  match segment.data with
  | [] => (NodeType.Static, "")
  | c :: rest =>
    if c = ':' then (NodeType.Param, String.mk rest)
    else if c = '*' then (NodeType.Wildcard, String.mk rest)
    else (NodeType.Static, "")

/-- The duplicate-parameter scan of `AddRoute`: walk the segments with
their indices, remembering the first index of every bound name; report
`(name, firstIndex, dupIndex)` for the first name seen twice. -/
def dupScan : List String → Nat → List (String × Nat) →
    Option (String × Nat × Nat)
  | [], _, _ => none
  | seg :: rest, i, seen =>
    match seg.data with
    | [] => dupScan rest (i + 1) seen
    | c :: nm =>
      if c = ':' ∨ c = '*' then
        match mapGet seen (String.mk nm) with
        | some first => some (String.mk nm, first, i)
        | none => dupScan rest (i + 1) (mapSet seen (String.mk nm) i)
      else
        dupScan rest (i + 1) seen

/-- The error text of the duplicate-parameter `fmt.Errorf`. -/
def dupMsg (name method path : String) (first dup : Nat) : String :=
  "duplicate parameter \"" ++ name ++ "\" in route " ++ method ++ " /" ++
    path ++ ": first occurrence at segment " ++ toString first ++
    ", duplicate at segment " ++ toString dup

/-- Generic in-place list update used to model the child-search loop of
`AddRoute`: transform the first element satisfying `p` where it stands,
or append `f d` when none matches (Go finds the child, else creates and
appends one, then mutates it). -/
def updateFirst {α : Type} (p : α → Bool) (f : α → α) (d : α) :
    List α → List α
  | [] => [f d]
  | x :: xs => if p x then f x :: xs else x :: updateFirst p f d xs

/-- Terminal-segment assignment: `next.Handlers[method] = handler`,
`next.Pattern = pattern`, `next.Middleware = middleware`. -/
def applyRoute {H M : Type} (method pattern : String) (handler : H)
    (mw : List M) : Node H M → Node H M
  | .mk p t _ hs cs pn _ => .mk p t pattern (mapSet hs method handler) cs pn mw

/-- The segment-insertion loop of `AddRoute`, expressed as recursion on
the remaining segments: at each depth reuse the child whose path and
kind both match (keeping its position) or append a fresh one, assign
the route data at the final segment, and otherwise descend. -/
def insertSegs {H M : Type} (method pattern : String) (handler : H)
    (mw : List M) : List String → List (Node H M) → List (Node H M)
  | [], cs => cs
  | seg :: rest, cs =>
    let k := segKind seg
    let step : Node H M → Node H M := fun c =>
      if rest.isEmpty then applyRoute method pattern handler mw c
      else c.withChildren (insertSegs method pattern handler mw rest c.children)
    updateFirst (fun c => decide (c.path = seg ∧ c.nType = k.1)) step
      (.mk seg k.1 "" [] [] k.2 []) cs

/-- A fresh method root (`Path: "/"`, empty handlers and children). -/
def rootNode {H M : Type} : Node H M :=
  .mk "/" NodeType.Static "" [] [] "" []

/-- `Tree.AddRoute(method, path, handler, middleware)`: reject paths not
beginning with `/`; `/` itself lands on the (lazily created) root;
otherwise trim, split, reject duplicate parameter names, and insert. -/
def Tree.addRoute {H M : Type} (t : Tree H M) (method path : String)
    (handler : H) (mw : List M) : Except String (Tree H M) :=
  if path.data.head? ≠ some '/' then
    Except.error ("invalid route path \"" ++ path ++ "\" for " ++ method ++
      ": path must begin with '/'")
  else
    let root := (mapGet t.roots method).getD rootNode
    if path = "/" then
      Except.ok ⟨mapSet t.roots method (applyRoute method "/" handler mw root)⟩
    else
      let trimmed := trimSlashes path
      let segments := splitSlash trimmed
      match dupScan segments 0 [] with
      | some d =>
        Except.error (dupMsg d.1 method trimmed d.2.1 d.2.2)
      | none =>
        let pattern := "/" ++ joinSep "/" segments
        Except.ok ⟨mapSet t.roots method
          (root.withChildren (insertSegs method pattern handler mw segments
            root.children))⟩

/-! ### Route naming (`internal/naming/naming.go`) -/

/-- `naming.Route`: a named-route record. -/
structure NamedRoute where
  name : String
  pattern : String
  method : String
deriving DecidableEq

/-- The base-name loop of `naming.GenerateName`: collect non-`:param`
segments (hyphens replaced by underscores) and record whether any
`:param` segment was skipped.  `*wildcard` segments are kept verbatim
and do not count as parameters, exactly as in the source. -/
def baseScan : List String → List String × Bool
  | [] => ([], false)
  | seg :: rest =>
    let r := baseScan rest
    if seg.data.head? = some ':' then (r.1, true)
    else (String.mk (seg.data.map fun c => if c = '-' then '_' else c)
      :: r.1, r.2)

/-- The method/parameter switch choosing the action suffix. -/
def actionSuffix (method : String) (hasParams : Bool) : String :=
  match method with
  | "GET" => if hasParams then "show" else "index"
  | "POST" => "create"
  | "PUT" => "update"
  | "PATCH" => "update"
  | "DELETE" => "destroy"
  | "HEAD" => if hasParams then "show" else "index"
  | "OPTIONS" => "options"
  | _ => method.toLower

/-- `naming.GenerateName(path, method)`: trim slashes (empty → no
name), split, build the base name from non-parameter segments (none
left → no name), and append the action suffix. -/
def generateName (path method : String) : String :=
  let p := trimSlashes path
  if p = "" then ""
  else
    let scan := baseScan (splitSlash p)
    if scan.1 = [] then ""
    else joinSep "_" scan.1 ++ "_" ++ actionSuffix method scan.2

/-- The registration-facing state of a `Router`: its trie and its
named-route registry (`naming.Registry`, a map keyed by route name). -/
structure Rtr (H M : Type) : Type where
  tree : Tree H M
  names : List (String × NamedRoute)

/-- A fresh router state (`router.New()`). -/
def Rtr.new {H M : Type} : Rtr H M := ⟨Tree.new, []⟩

/-- `Router.handle(method, path, handler, name, middleware...)`: add the
route to the trie — propagating `AddRoute`'s error, on which the source
panics before serving any request — then register the route under its
explicit name, or under the auto-generated one, or not at all when the
effective name is empty (`Registry.Add` overwrites same-name entries). -/
def handle {H M : Type} (r : Rtr H M) (method path : String) (handler : H)
    (name : String) (mw : List M) : Except String (Rtr H M) :=
  match r.tree.addRoute method path handler mw with
  | .error e => .error e
  | .ok t =>
    let nm := if name = "" then generateName path method else name
    .ok ⟨t, if nm = "" then r.names
            else mapSet r.names nm ⟨nm, path, method⟩⟩

/-- One registration request: the arguments of a `handle` call. -/
structure Registration (H M : Type) : Type where
  method : String
  path : String
  handler : H
  name : String
  mw : List M

/-- The effective name a registration is filed under. -/
def effName {H M : Type} (reg : Registration H M) : String :=
  if reg.name = "" then generateName reg.path reg.method else reg.name

/-- A registration phase: run `handle` for each request in order,
aborting at the first construction error (the source panics there). -/
def processAll {H M : Type} : Rtr H M → List (Registration H M) →
    Except String (Rtr H M)
  | r, [] => .ok r
  | r, reg :: rest =>
    match handle r reg.method reg.path reg.handler reg.name reg.mw with
    | .error e => .error e
    | .ok r' => processAll r' rest

/-! ### The response writer and context (`context.go`) -/

/-- The state of `responseWriter`: the captured status, the
wrote-header flag, and the headers and body chunks sent so far. -/
structure RespWriter where
  status : Nat
  wroteHeader : Bool
  headers : List (String × String)
  body : List String
deriving DecidableEq

/-- `responseWriter.WriteHeader`: a no-op once headers were written. -/
def RespWriter.writeHeader (w : RespWriter) (code : Nat) : RespWriter :=
  if w.wroteHeader then w
  else { w with status := code, wroteHeader := true }

/-- `responseWriter.Write`: ensure `WriteHeader(200)` ran, then send the
chunk — unconditionally appended to the body. -/
def RespWriter.write (w : RespWriter) (chunk : String) : RespWriter :=
  let w1 := if ¬ w.wroteHeader then w.writeHeader 200 else w
  { w1 with body := w1.body ++ [chunk] }

/-- `Header().Set(key, value)`. -/
def RespWriter.setHeader (w : RespWriter) (k v : String) : RespWriter :=
  { w with headers := mapSet w.headers k v }

/-- The per-request `Context`: the wrapped writer, the route params,
the key/value store (`Context.Set`/`GetInt`, here with `Nat` values),
and the process stderr modelled as a log of reported errors. -/
structure Ctx where
  writer : RespWriter
  params : Params
  store : List (String × Nat)
  errLog : List String
deriving DecidableEq

/-- `newContext`: fresh writer with status 200 and nothing written. -/
def newContext : Ctx :=
  ⟨⟨200, false, [], []⟩, [], [], []⟩

/-- Handlers are `func(*Context) error`; the error is its message. -/
abbrev Handler := Ctx → Ctx × Option String

/-- `MiddlewareFunc`: a handler transformer. -/
abbrev Middleware := Handler → Handler

/-- Modelled from the spec: the out-of-scope JSON serialization
(`encoding/json`, not part of this repository) of the one-key object
`map[string]string{"error": msg}` that every default hook sends; Go's
`Encoder.Encode` emits the object followed by a newline. -/
def encodeErrObj (msg : String) : String :=
  "\x7b\"error\":\"" ++ msg ++ "\"\x7d\n"

/-- `Context.JSON(status, data)` with `payload` the encoded bytes of
`data`: set the content type, write the status, send the body; encoding
a string map never fails, so the returned error is `none`. -/
def Ctx.json (c : Ctx) (status : Nat) (payload : String) :
    Ctx × Option String :=
  let w := (c.writer.setHeader "Content-Type" "application/json").writeHeader
    status
  ({ c with writer := w.write payload }, none)

/-! ### The dispatcher (`router.go` `New` / `ServeHTTP`) -/

/-- The default `NotFound` hook of `New()`. -/
def defaultNotFound : Handler := fun c =>
  c.json 404 (encodeErrObj "Not Found")

/-- The default `MethodNotAllowed` hook of `New()`. -/
def defaultMethodNotAllowed : Handler := fun c =>
  c.json 405 (encodeErrObj "Method Not Allowed")

/-- The default `ErrorHandler` of `New()`: once headers were sent it
only reports to stderr; otherwise it sends a 500 JSON error body. -/
def defaultErrorHandler (c : Ctx) (err : String) : Ctx :=
  if c.writer.wroteHeader then
    { c with errLog := c.errLog ++ ["Error after headers sent: " ++ err] }
  else
    (c.json 500 (encodeErrObj err)).1

/-- The serving-facing state of a `Router`; `ErrorHandler` is always
set (by `New`), so the source's `!= nil` guard is vacuous here. -/
structure Dispatcher where
  tree : Tree Handler Middleware
  middleware : List Middleware
  notFound : Handler
  methodNotAllowed : Handler
  errorHandler : Ctx → String → Ctx

/-- The middleware-chain construction of `ServeHTTP`: wrap the handler
with each route-specific middleware from last to first, then with each
global middleware from last to first, so the first-registered global
middleware is outermost. -/
def buildFinal (globalMw routeMw : List Middleware) (h : Handler) :
    Handler :=
  globalMw.foldr (fun m acc => m acc)
    (routeMw.foldr (fun m acc => m acc) h)

/-- `group.go` `Group.HandleNamed`: the middleware actually attached to
a route registered through a group is the group's middleware followed
by the route-specific middleware. -/
def groupAllMiddleware {M : Type} (groupMw routeMw : List M) : List M :=
  groupMw ++ routeMw

/-- `ServeHTTP`: look the route up; on a match set the params, compose
and run the chain, funnelling a returned failure into the error hook;
otherwise run the Method-Not-Allowed hook when some other method's tree
matches the path, else the Not-Found hook — a failing hook is funnelled
into the error hook the same way. -/
def serveHTTP (r : Dispatcher) (method path : String) : Ctx :=
  let c := newContext
  match r.tree.find method path with
  | (some h, params, routeMw) =>
    let c1 := { c with params := params }
    match buildFinal r.middleware routeMw h c1 with
    | (c', some e) => r.errorHandler c' e
    | (c', none) => c'
  | (none, _, _) =>
    if r.tree.hasMethod path then
      match r.methodNotAllowed c with
      | (c', some e) => r.errorHandler c' e
      | (c', none) => c'
    else
      match r.notFound c with
      | (c', some e) => r.errorHandler c' e
      | (c', none) => c'

/-! ### Instrumented handlers and middleware for the ordering claims -/

/-- A middleware that writes `label ++ "-before"`, calls the next
handler, then writes `label ++ "-after"`. -/
def traceMw (label : String) : Middleware := fun next c =>
  let c1 := { c with writer := c.writer.write (label ++ "-before") }
  match next c1 with
  | (c2, e) => ({ c2 with writer := c2.writer.write (label ++ "-after") }, e)

/-- A handler that writes its label and counts its invocations in the
context store. -/
def traceHandler (label : String) : Handler := fun c =>
  ({ c with writer := c.writer.write label,
            store := mapSet c.store "calls"
              (((mapGet c.store "calls").getD 0) + 1) }, none)

/-! ### Concrete routers, trees and spec-side predicates used by the
claims -/

/-- Registration helper for patterns known to be well-formed: unwrap
`addRoute`, keeping the tree unchanged on an error (never hit below). -/
def regOk {H M : Type} (t : Tree H M) (m p : String) (h : H) (mw : List M) :
    Tree H M :=
  match t.addRoute m p h mw with
  | .ok t' => t'
  | .error _ => t

/-- Spec-side reading of "this segment binds this parameter name":
the segment starts with `:` or `*` and the name is the remainder. -/
def bindsName (seg name : String) : Prop :=
  ∃ c rest, seg.data = c :: rest ∧ (c = ':' ∨ c = '*') ∧
    name = String.mk rest

/-- Position `k` of the segment list binds `name`. -/
def bindsAt (segs : List String) (k : Nat) (name : String) : Prop :=
  ∃ s, segs.get? k = some s ∧ bindsName s name

/-- Does the string contain any character other than `/`? -/
def hasNonSlash (s : String) : Bool :=
  s.data.any (· ≠ '/')

/-- A handler that does nothing and succeeds. -/
def constHandler : Handler := fun c => (c, none)

/-- A handler that writes a body chunk and then reports a failure. -/
def writeThenFail : Handler := fun c =>
  ({ c with writer := c.writer.write "ok" }, some "boom")

/-- An observable hook: append a label to the log, optionally fail. -/
def logHook (label : String) (failWith : Option String) : Handler := fun c =>
  ({ c with errLog := c.errLog ++ [label] }, failWith)

/-- An observable error hook: log which failure it received. -/
def logErrHandler : Ctx → String → Ctx := fun c e =>
  { c with errLog := c.errLog ++ ["error-hook:" ++ e] }

/-- A router with only `GET /users` registered and observable hooks. -/
def isoRouter : Dispatcher :=
  { tree := regOk Tree.new "GET" "/users" constHandler []
    middleware := []
    notFound := logHook "not-found" none
    methodNotAllowed := logHook "method-not-allowed" none
    errorHandler := logErrHandler }

/-- `isoRouter` whose Method-Not-Allowed hook itself fails. -/
def isoRouterFailingHook : Dispatcher :=
  { isoRouter with methodNotAllowed := logHook "method-not-allowed" (some "hook-failed") }

/-- A router (default error hook) whose one handler writes then fails. -/
def postWriteRouter : Dispatcher :=
  { tree := regOk Tree.new "GET" "/w" writeThenFail []
    middleware := []
    notFound := defaultNotFound
    methodNotAllowed := defaultMethodNotAllowed
    errorHandler := defaultErrorHandler }

/-- The `/files/*fp/extra` trie, node by node: the route's handler ends
up on a `Static` child *beneath* the wildcard node. -/
def nfwExtra : Node Nat Nat :=
  .mk "extra" NodeType.Static "/files/*fp/extra" [("GET", 9)] [] "" []

/-- The wildcard node of the `/files/*fp/extra` trie: it has a child
but no handler of its own. -/
def nfwWc : Node Nat Nat :=
  .mk "*fp" NodeType.Wildcard "" [] [nfwExtra] "fp" []

/-- The `files` node of the `/files/*fp/extra` trie. -/
def nfwFiles : Node Nat Nat :=
  .mk "files" NodeType.Static "" [] [nfwWc] "" []

/-- The root of the `/files/*fp/extra` trie. -/
def nfwRoot : Node Nat Nat :=
  .mk "/" NodeType.Static "" [] [nfwFiles] "" []

/-- The whole `/files/*fp/extra` tree. -/
def nfwTree : Tree Nat Nat := ⟨[("GET", nfwRoot)]⟩

/-- One registration of `GET /:id` (auto-named, so effectively
nameless); the claimed enumeration should contain it. -/
def lonelyParamReg : Registration Nat Nat := ⟨"GET", "/:id", 0, "", []⟩

/-- The router produced by registering only `GET /:id`. -/
def lonelyParamRouter : Rtr Nat Nat :=
  match processAll Rtr.new [lonelyParamReg] with
  | .ok r => r
  | .error _ => Rtr.new

/-- One ordinary registration of `GET /users`. -/
def usersReg : Registration Nat Nat := ⟨"GET", "/users", 0, "", []⟩

/-- The router produced by registering only `GET /users`. -/
def usersRouter : Rtr Nat Nat :=
  match processAll Rtr.new [usersReg] with
  | .ok r => r
  | .error _ => Rtr.new

/-- A one-route wildcard node used to witness the wildcard lemmas. -/
def smallWcNode : Node Nat Nat :=
  .mk "*x" NodeType.Wildcard "/*x" [("GET", 1)] [] "x" []

/-- A one-route param node used to witness the backtracking lemmas. -/
def smallParamNode : Node Nat Nat :=
  .mk ":z" NodeType.Param "/:z" [("GET", 5)] [] "z" []

/-! ### Shared facts about the Go-map model -/

theorem mapGet_set_self {α : Type} (m : List (String × α)) (k : String)
    (v : α) : mapGet (mapSet m k v) k = some v := by
  induction m with
  | nil => simp [mapSet, mapGet]
  | cons hd tl ih =>
    obtain ⟨k', v'⟩ := hd
    by_cases h : k' = k <;> simp [mapSet, mapGet, h, ih]

theorem mapGet_set_ne {α : Type} (m : List (String × α)) {k k' : String}
    (v : α) (h : k' ≠ k) : mapGet (mapSet m k v) k' = mapGet m k' := by
  induction m with
  | nil => simp [mapSet, mapGet, h.symm]
  | cons hd tl ih =>
    obtain ⟨k0, v0⟩ := hd
    by_cases h0 : k0 = k
    · subst h0
      simp [mapSet, mapGet, h.symm]
    · simp [mapSet, mapGet, h0, ih]

theorem mapGet_set_some {α : Type} (m : List (String × α)) {k n : String}
    (v : α) {w : α} (h : mapGet m n = some w) :
    ∃ u, mapGet (mapSet m k v) n = some u := by
  by_cases hk : n = k
  · subst hk; exact ⟨v, mapGet_set_self m n v⟩
  · exact ⟨w, by rw [mapGet_set_ne m v hk, h]⟩

theorem mapGet_mem {α : Type} {m : List (String × α)} {k : String} {v : α}
    (h : mapGet m k = some v) : (k, v) ∈ m := by
  induction m with
  | nil => simp [mapGet] at h
  | cons hd tl ih =>
    obtain ⟨k', v'⟩ := hd
    by_cases hk : k' = k
    · subst hk
      simp [mapGet] at h
      simp [h]
    · simp [mapGet, hk] at h
      exact List.mem_cons_of_mem _ (ih h)

/-! ### C1 — lookup precedence between Literal and Param siblings -/

/-- C1 (code evaluated at the failing input): the claim says the
Literal child wins over the Param child regardless of registration
order, and the `search` comment ("static > param > wildcard") agrees —
but the loop visits children in insertion order.  With `GET /users/:id`
registered before `GET /users/new`, the request `GET /users/new`
resolves through the Param child (handler `1`, binding `id = "new"`),
never reaching the Literal child's handler `2`; with the opposite
registration order the Literal child wins.  The outcome depends on
registration order, refuting the claim. -/
theorem literal_param_precedence_eval :
    ((regOk (regOk (Tree.new (H := Nat) (M := Nat)) "GET" "/users/:id" 1 [])
        "GET" "/users/new" 2 []).find "GET" "/users/new"
      = (some 1, [("id", "new")], [])) ∧
    ((regOk (regOk (Tree.new (H := Nat) (M := Nat)) "GET" "/users/new" 2 [])
        "GET" "/users/:id" 1 []).find "GET" "/users/new"
      = (some 2, [], [])) := by
  constructor <;> decide

/-! ### C4 — middleware composition order -/

/-- C4: with global middleware `[A, B]` and route-level middleware
`[C, D]` (the group part prepended before the route-specific part, as
`Group.HandleNamed` does), the composed callable is exactly
`A (B (C (D H)))`; dispatching a matched request through `ServeHTTP`
runs the before-parts in order `A, B, C, D`, then the handler, then the
after-parts in order `D, C, B, A`, and invokes the handler exactly
once. -/
theorem middleware_composition_order :
    (∀ (A B C D : Middleware) (h : Handler),
      buildFinal [A, B] (groupAllMiddleware [C] [D]) h = A (B (C (D h)))) ∧
    (∀ a b c d hl : String,
      (serveHTTP
        { tree := regOk Tree.new "GET" "/x" (traceHandler hl)
            (groupAllMiddleware [traceMw c] [traceMw d])
          middleware := [traceMw a, traceMw b]
          notFound := defaultNotFound
          methodNotAllowed := defaultMethodNotAllowed
          errorHandler := defaultErrorHandler } "GET" "/x").writer.body
        = [a ++ "-before", b ++ "-before", c ++ "-before", d ++ "-before",
           hl, d ++ "-after", c ++ "-after", b ++ "-after", a ++ "-after"] ∧
      mapGet (serveHTTP
        { tree := regOk Tree.new "GET" "/x" (traceHandler hl)
            (groupAllMiddleware [traceMw c] [traceMw d])
          middleware := [traceMw a, traceMw b]
          notFound := defaultNotFound
          methodNotAllowed := defaultMethodNotAllowed
          errorHandler := defaultErrorHandler } "GET" "/x").store "calls"
        = some 1) := by
  refine ⟨fun A B C D h => rfl, fun a b c d hl => ⟨rfl, rfl⟩⟩

/-! ### C6 — wildcard greediness and terminality -/

/-- C6: when the lookup reaches a Wildcard child with unconsumed
segments, it binds the wildcard's name to the `/`-joined remainder
(`segs.drop idx`, no leading slash) and succeeds exactly when the
wildcard node has a handler for the method, with that node's
middleware; the outcome is independent of the wildcard node's children
(no recursion past a wildcard).  Concretely, `/files/*filepath`
matched against `/files/a/b/c.txt` binds `filepath = "a/b/c.txt"`. -/
theorem wildcard_greedy_terminal :
    (∀ (H M : Type) (w : Node H M) (rest : List (Node H M))
      (segs : List String) (idx : Nat) (params : Params) (method : String),
      w.nType = NodeType.Wildcard →
      searchChildren (w :: rest) segs idx params method =
        (match mapGet w.handlers method with
         | some h => (some (h, w.middleware),
             mapSet params w.paramName (joinSep "/" (segs.drop idx)))
         | none => searchChildren rest segs idx
             (mapSet params w.paramName (joinSep "/" (segs.drop idx)))
             method)) ∧
    (∀ (H M : Type) (w : Node H M) (cs' : List (Node H M))
      (rest : List (Node H M)) (segs : List String) (idx : Nat)
      (params : Params) (method : String),
      w.nType = NodeType.Wildcard →
      searchChildren (w.withChildren cs' :: rest) segs idx params method =
        searchChildren (w :: rest) segs idx params method) ∧
    ((regOk (Tree.new (H := Nat) (M := Nat)) "GET" "/files/*filepath" 7
        []).find "GET" "/files/a/b/c.txt"
      = (some 7, [("filepath", "a/b/c.txt")], [])) := by
  refine ⟨?_, ?_, by decide⟩
  · intro H M w rest segs idx params method hw
    cases w with
    | mk p t pat hs cs pn mw =>
      simp only [Node.nType] at hw
      subst hw
      cases hm : mapGet hs method <;>
        simp only [searchChildren, Node.nType, Node.path, Node.handlers,
          Node.paramName, Node.middleware, hm]
  · intro H M w cs' rest segs idx params method hw
    cases w with
    | mk p t pat hs cs pn mw =>
      simp only [Node.nType] at hw
      subst hw
      cases hm : mapGet hs method <;>
        simp only [searchChildren, Node.withChildren, Node.nType,
          Node.path, Node.handlers, Node.paramName, Node.middleware, hm]

/-- C6 witness: the wildcard lemma applied to a concrete wildcard node
holding a `GET` handler, with two unconsumed segments. -/
theorem wildcard_greedy_terminal_witness :
    searchChildren [smallWcNode] ["a", "b"] 0 [] "GET"
      = (some (1, []), [("x", "a/b")]) := by
  rw [wildcard_greedy_terminal.1 Nat Nat smallWcNode [] ["a", "b"] 0 []
    "GET" rfl]
  decide

/-! ### C7 — param backtracking -/

/-- C7: a Param child binds the current segment to its name before
recursing; on a successful recursion the result is returned as is, and
on a failed recursion the binding is deleted from the (possibly
mutated) map before the next sibling alternative is tried, so the
failed speculative binding never survives into a later match.
Concretely, with `/a/:x/static` then `/a/:x/:y` registered,
`/a/v1/static` matches the first route with params exactly `x = v1`,
and `/a/v1/other` matches the second with exactly `x = v1, y = other`:
no stale binding leaks between the attempts. -/
theorem param_backtracking :
    (∀ (H M : Type) (child : Node H M) (rest : List (Node H M))
      (segs : List String) (idx : Nat) (params : Params) (method : String)
      (f : H × List M) (p' : Params),
      child.nType = NodeType.Param →
      search child segs (idx + 1)
          (mapSet params child.paramName (segs.getD idx "")) method
        = (some f, p') →
      searchChildren (child :: rest) segs idx params method = (some f, p')) ∧
    (∀ (H M : Type) (child : Node H M) (rest : List (Node H M))
      (segs : List String) (idx : Nat) (params : Params) (method : String)
      (p' : Params),
      child.nType = NodeType.Param →
      search child segs (idx + 1)
          (mapSet params child.paramName (segs.getD idx "")) method
        = (none, p') →
      searchChildren (child :: rest) segs idx params method =
        searchChildren rest segs idx (mapDel p' child.paramName) method) ∧
    ((regOk (regOk (Tree.new (H := Nat) (M := Nat)) "GET" "/a/:x/static" 1
        []) "GET" "/a/:x/:y" 2 []).find "GET" "/a/v1/static"
      = (some 1, [("x", "v1")], [])) ∧
    ((regOk (regOk (Tree.new (H := Nat) (M := Nat)) "GET" "/a/:x/static" 1
        []) "GET" "/a/:x/:y" 2 []).find "GET" "/a/v1/other"
      = (some 2, [("x", "v1"), ("y", "other")], [])) := by
  refine ⟨?_, ?_, by decide, by decide⟩
  · intro H M child rest segs idx params method f p' hp hs
    cases child with
    | mk p t pat hs0 cs pn mw =>
      simp only [Node.nType] at hp
      subst hp
      simp only [Node.paramName] at hs
      simp only [searchChildren, Node.nType, Node.paramName, hs]
  · intro H M child rest segs idx params method p' hp hs
    cases child with
    | mk p t pat hs0 cs pn mw =>
      simp only [Node.nType] at hp
      subst hp
      simp only [Node.paramName] at hs
      simp only [searchChildren, Node.nType, Node.paramName, hs]

/-- C7 witness: the success case of the backtracking lemma applied to a
concrete param node. -/
theorem param_backtracking_witness :
    searchChildren [smallParamNode] ["q"] 0 [] "GET"
      = (some (5, []), [("z", "q")]) :=
  param_backtracking.1 Nat Nat smallParamNode [] ["q"] 0 [] "GET" (5, [])
    [("z", "q")] rfl (by decide)

/-! ### Step equations for the lookup recursion -/

theorem search_eq_of_ne {H M : Type} {n : Node H M} {segs : List String}
    {idx : Nat} (params : Params) (method : String)
    (h : ¬ idx = segs.length) :
    search n segs idx params method =
      searchChildren n.children segs idx params method := by
  cases n with
  | mk p t pat hs cs pn mw =>
    simp only [search, Node.children, if_neg h]

theorem search_eq_of_eq {H M : Type} {n : Node H M} {segs : List String}
    {idx : Nat} (params : Params) (method : String)
    (h : idx = segs.length) :
    search n segs idx params method =
      (match mapGet n.handlers method with
       | some hh => (some (hh, n.middleware), params)
       | none => (none, params)) := by
  cases n with
  | mk p t pat hs cs pn mw =>
    simp only [search, Node.handlers, Node.middleware, if_pos h]

theorem searchChildren_nil_eq {H M : Type} (segs : List String) (idx : Nat)
    (params : Params) (method : String) :
    searchChildren ([] : List (Node H M)) segs idx params method =
      (none, params) := by
  simp only [searchChildren]

theorem searchChildren_wildcard_eq {H M : Type} {w : Node H M}
    (rest : List (Node H M)) (segs : List String) (idx : Nat)
    (params : Params) (method : String)
    (hw : w.nType = NodeType.Wildcard) :
    searchChildren (w :: rest) segs idx params method =
      (match mapGet w.handlers method with
       | some h => (some (h, w.middleware),
           mapSet params w.paramName (joinSep "/" (segs.drop idx)))
       | none => searchChildren rest segs idx
           (mapSet params w.paramName (joinSep "/" (segs.drop idx)))
           method) := by
  cases w with
  | mk p t pat hs cs pn mw =>
    simp only [Node.nType] at hw
    subst hw
    cases hm : mapGet hs method <;>
      simp only [searchChildren, Node.nType, Node.path, Node.handlers,
        Node.paramName, Node.middleware, hm]

theorem searchChildren_static_hit_eq {H M : Type} {child : Node H M}
    (rest : List (Node H M)) (segs : List String) (idx : Nat)
    (params : Params) (method : String)
    (ht : child.nType = NodeType.Static)
    (hp : child.path = segs.getD idx "") :
    searchChildren (child :: rest) segs idx params method =
      (match search child segs (idx + 1) params method with
       | (some f, p') => (some f, p')
       | (none, p') => searchChildren rest segs idx p' method) := by
  cases child with
  | mk p t pat hs cs pn mw =>
    simp only [Node.nType] at ht
    subst ht
    simp only [Node.path] at hp
    simp only [searchChildren, Node.nType, Node.path, if_pos hp]

theorem searchChildren_static_miss_eq {H M : Type} {child : Node H M}
    (rest : List (Node H M)) (segs : List String) (idx : Nat)
    (params : Params) (method : String)
    (ht : child.nType = NodeType.Static)
    (hp : ¬ child.path = segs.getD idx "") :
    searchChildren (child :: rest) segs idx params method =
      searchChildren rest segs idx params method := by
  cases child with
  | mk p t pat hs cs pn mw =>
    simp only [Node.nType] at ht
    subst ht
    simp only [Node.path] at hp
    simp only [searchChildren, Node.nType, Node.path, if_neg hp]

/-! ### C9 — a non-final wildcard registers silently but is
unreachable -/

theorem nfw_files_aux (segs : List String) (idx : Nat) (params : Params) :
    (search nfwFiles segs idx params "GET").1 = none := by
  by_cases h : idx = segs.length
  · rw [show nfwFiles = Node.mk "files" NodeType.Static "" [] [nfwWc] "" []
      from rfl, search_eq_of_eq params "GET" h]
    simp [Node.handlers, mapGet]
  · rw [show nfwFiles = Node.mk "files" NodeType.Static "" [] [nfwWc] "" []
      from rfl, search_eq_of_ne params "GET" h]
    rw [Node.children, searchChildren_wildcard_eq [] segs idx params "GET"
      (by rfl)]
    simp [nfwWc, Node.handlers, mapGet, searchChildren_nil_eq]

theorem nfw_root_aux (segs : List String) (idx : Nat) (params : Params) :
    (search nfwRoot segs idx params "GET").1 = none := by
  by_cases h : idx = segs.length
  · rw [show nfwRoot = Node.mk "/" NodeType.Static "" [] [nfwFiles] "" []
      from rfl, search_eq_of_eq params "GET" h]
    simp [Node.handlers, mapGet]
  · rw [show nfwRoot = Node.mk "/" NodeType.Static "" [] [nfwFiles] "" []
      from rfl, search_eq_of_ne params "GET" h]
    rw [Node.children]
    by_cases hp : nfwFiles.path = segs.getD idx ""
    · rw [searchChildren_static_hit_eq [] segs idx params "GET" (by rfl) hp]
      rcases hq : search nfwFiles segs (idx + 1) params "GET" with ⟨res, pp⟩
      have h9 := nfw_files_aux segs (idx + 1) params
      rw [hq] at h9
      simp only at h9
      subst h9
      simp [searchChildren_nil_eq]
    · rw [searchChildren_static_miss_eq [] segs idx params "GET" (by rfl) hp]
      simp [searchChildren_nil_eq]

/-- C9: registering the pattern `/files/*fp/extra`, whose wildcard is
followed by a further segment, raises no construction error — the
route is inserted as a `Static` child *beneath* the wildcard node
(visible in `nfwTree`) — yet no request at all can reach it: lookup
treats every wildcard node as terminal, so `find` reports no match for
every method and every path. -/
theorem nonfinal_wildcard_unreachable :
    (Tree.addRoute (Tree.new (H := Nat) (M := Nat)) "GET"
        "/files/*fp/extra" 9 [] = Except.ok nfwTree) ∧
    (∀ method path : String, (nfwTree.find method path).1 = none) := by
  refine ⟨rfl, ?_⟩
  intro method path
  by_cases hm : "GET" = method
  · subst hm
    by_cases hp : path = "/"
    · simp [Tree.find, nfwTree, nfwRoot, mapGet, hp, Node.handlers]
    · rcases hq : search nfwRoot (splitSlash (trimSlashes path)) 0 [] "GET"
        with ⟨res, pp⟩
      have h9 := nfw_root_aux (splitSlash (trimSlashes path)) 0 []
      rw [hq] at h9
      simp only at h9
      subst h9
      simp [Tree.find, nfwTree, mapGet, hp, hq]
  · simp [Tree.find, nfwTree, mapGet, hm]

/-! ### C3 — post-write immutability -/

/-- C3: once any part of the response has been written
(`wroteHeader = true`, which the writer sets on the first status or
body write), the default error hook leaves the writer — status, headers
and body — untouched and only reports to stderr.  Consequently a
dispatch whose composed handler chain (or whose Method-Not-Allowed
hook) writes and then fails ends with exactly the writer state produced
before the failure: no status overwrite, no appended error payload. -/
theorem post_write_immutability :
    (∀ (c : Ctx) (e : String), c.writer.wroteHeader = true →
      (defaultErrorHandler c e).writer = c.writer) ∧
    (∀ (t : Tree Handler Middleware) (gmw : List Middleware)
      (nf mna : Handler) (m p : String) (h : Handler) (params : Params)
      (rmw : List Middleware) (c' : Ctx) (e : String),
      t.find m p = (some h, params, rmw) →
      buildFinal gmw rmw h { newContext with params := params }
        = (c', some e) →
      c'.writer.wroteHeader = true →
      (serveHTTP ⟨t, gmw, nf, mna, defaultErrorHandler⟩ m p).writer
        = c'.writer) ∧
    (∀ (t : Tree Handler Middleware) (gmw : List Middleware)
      (nf mna : Handler) (m p : String) (c' : Ctx) (e : String),
      (t.find m p).1 = none → t.hasMethod p = true →
      mna newContext = (c', some e) → c'.writer.wroteHeader = true →
      (serveHTTP ⟨t, gmw, nf, mna, defaultErrorHandler⟩ m p).writer
        = c'.writer) := by
  refine ⟨?_, ?_, ?_⟩
  · intro c e hw
    simp [defaultErrorHandler, hw]
  · intro t gmw nf mna m p h params rmw c' e hfind hbuild hw
    simp only [serveHTTP, hfind, hbuild]
    simp [defaultErrorHandler, hw]
  · intro t gmw nf mna m p c' e hfind hmeth hmna hw
    rcases hf : t.find m p with ⟨o, pp, mm⟩
    rw [hf] at hfind
    simp only at hfind
    subst hfind
    simp only [serveHTTP, hf, hmeth, hmna]
    simp [defaultErrorHandler, hw]

/-- C3 witness: the handler of `postWriteRouter` writes `"ok"` (which
sends a 200 status) and then fails with `"boom"`; the final writer is
exactly the pre-failure one. -/
theorem post_write_immutability_witness :
    (serveHTTP ⟨regOk Tree.new "GET" "/w" writeThenFail [], [],
        defaultNotFound, defaultMethodNotAllowed, defaultErrorHandler⟩
      "GET" "/w").writer = ⟨200, true, [], ["ok"]⟩ :=
  post_write_immutability.2.1 (regOk Tree.new "GET" "/w" writeThenFail [])
    [] defaultNotFound defaultMethodNotAllowed "GET" "/w" writeThenFail []
    [] ⟨⟨200, true, [], ["ok"]⟩, [], [], []⟩ "boom" rfl rfl rfl

/-! ### C5 — method isolation and hook selection -/

/-- C5: when the lookup for the requested method finds no handler,
`ServeHTTP` runs exactly one hook — the Method-Not-Allowed hook when
the same trie lookup succeeds for some method (equivalently, given the
requested method failed, for some *other* registered method), else the
Not-Found hook — and a failure returned by that hook is passed to the
error hook.  Concretely, with only `GET /users` registered,
`POST /users` runs only the Method-Not-Allowed hook, `GET /unknown`
runs only the Not-Found hook, a matched `GET /users` runs no hook, and
a failing Method-Not-Allowed hook has its failure delivered to the
error hook. -/
theorem method_isolation_hooks :
    (∀ (r : Dispatcher) (m p : String),
      (r.tree.find m p).1 = none → r.tree.hasMethod p = true →
      serveHTTP r m p =
        (match r.methodNotAllowed newContext with
         | (c', some e) => r.errorHandler c' e
         | (c', none) => c')) ∧
    (∀ (r : Dispatcher) (m p : String),
      (r.tree.find m p).1 = none → r.tree.hasMethod p = false →
      serveHTTP r m p =
        (match r.notFound newContext with
         | (c', some e) => r.errorHandler c' e
         | (c', none) => c')) ∧
    (∀ (H M : Type) (t : Tree H M) (m p : String),
      (t.find m p).1 = none →
      (t.hasMethod p = true ↔
        ∃ m', m' ≠ m ∧ ((t.find m' p).1).isSome)) ∧
    ((serveHTTP isoRouter "POST" "/users").errLog
      = ["method-not-allowed"]) ∧
    ((serveHTTP isoRouter "GET" "/unknown").errLog = ["not-found"]) ∧
    ((serveHTTP isoRouter "GET" "/users").errLog = []) ∧
    ((serveHTTP isoRouterFailingHook "POST" "/users").errLog
      = ["method-not-allowed", "error-hook:hook-failed"]) := by
  refine ⟨?_, ?_, ?_, rfl, rfl, rfl, rfl⟩
  · intro r m p hfind hmeth
    rcases hf : r.tree.find m p with ⟨o, pp, mm⟩
    rw [hf] at hfind
    simp only at hfind
    subst hfind
    simp only [serveHTTP, hf, hmeth, if_true]
  · intro r m p hfind hmeth
    rcases hf : r.tree.find m p with ⟨o, pp, mm⟩
    rw [hf] at hfind
    simp only at hfind
    subst hfind
    simp only [serveHTTP, hf, hmeth, Bool.false_eq_true, if_false]
  · intro H M t m p hfind
    constructor
    · intro hany
      rw [Tree.hasMethod, List.any_eq_true] at hany
      obtain ⟨mr, hmem, hsome⟩ := hany
      by_cases hm : mr.1 = m
      · rw [hm] at hsome
        rw [hfind] at hsome
        simp at hsome
      · exact ⟨mr.1, hm, by simpa using hsome⟩
    · intro hex
      obtain ⟨m', hne, hsome⟩ := hex
      rw [Tree.hasMethod, List.any_eq_true]
      cases hroot : mapGet t.roots m' with
      | none =>
        rw [Tree.find, hroot] at hsome
        simp at hsome
      | some root =>
        exact ⟨(m', root), mapGet_mem hroot, by simpa using hsome⟩

/-- C5 witness: the Method-Not-Allowed branch equation applied to the
concrete one-route router at `POST /users`. -/
theorem method_isolation_hooks_witness :
    serveHTTP isoRouter "POST" "/users" =
      (match isoRouter.methodNotAllowed newContext with
       | (c', some e) => isoRouter.errorHandler c' e
       | (c', none) => c') :=
  method_isolation_hooks.1 isoRouter "POST" "/users" rfl rfl

/-! ### C2 — duplicate parameter rejection -/

theorem dupScan_none_absent :
    ∀ (segs : List String) (i : Nat) (seen : List (String × Nat)),
      dupScan segs i seen = none →
      ∀ (k : Nat) (name : String), bindsAt segs k name →
        mapGet seen name = none := by
  intro segs
  induction segs with
  | nil =>
    intro i seen _ k name hbind
    obtain ⟨s, hs, _⟩ := hbind
    simp at hs
  | cons seg rest ih =>
    intro i seen hscan k name hbind
    obtain ⟨s, hs, hb⟩ := hbind
    rcases hdata : seg.data with _ | ⟨c, nm⟩
    · simp only [dupScan, hdata] at hscan
      cases k with
      | zero =>
        simp at hs
        subst hs
        obtain ⟨c', r', hd', _, _⟩ := hb
        rw [hdata] at hd'
        cases hd'
      | succ k' =>
        exact ih (i + 1) seen hscan k' name ⟨s, by simpa using hs, hb⟩
    · simp only [dupScan, hdata] at hscan
      by_cases hc : c = ':' ∨ c = '*'
      · rw [if_pos hc] at hscan
        cases hseen : mapGet seen (String.mk nm) with
        | some first => rw [hseen] at hscan; cases hscan
        | none =>
          rw [hseen] at hscan
          cases k with
          | zero =>
            simp at hs
            subst hs
            obtain ⟨c', r', hd', _, hname⟩ := hb
            rw [hdata] at hd'
            cases hd'
            rw [hname]
            exact hseen
          | succ k' =>
            have habs := ih (i + 1) (mapSet seen (String.mk nm) i) hscan
              k' name ⟨s, by simpa using hs, hb⟩
            cases hget : mapGet seen name with
            | none => rfl
            | some w =>
              obtain ⟨u, hu⟩ := mapGet_set_some seen (k := String.mk nm) i
                hget
              rw [hu] at habs
              cases habs
      · rw [if_neg hc] at hscan
        cases k with
        | zero =>
          simp at hs
          subst hs
          obtain ⟨c', r', hd', hc', _⟩ := hb
          rw [hdata] at hd'
          cases hd'
          exact absurd hc' hc
        | succ k' =>
          exact ih (i + 1) seen hscan k' name ⟨s, by simpa using hs, hb⟩

theorem dupScan_none_no_dup :
    ∀ (segs : List String) (i : Nat) (seen : List (String × Nat)),
      dupScan segs i seen = none →
      ∀ (a b : Nat) (name : String), a < b →
        bindsAt segs a name → bindsAt segs b name → False := by
  intro segs
  induction segs with
  | nil =>
    intro i seen _ a b name _ hA _
    obtain ⟨s, hs, _⟩ := hA
    simp at hs
  | cons seg rest ih =>
    intro i seen hscan a b name hab hA hB
    cases b with
    | zero => omega
    | succ b' =>
      have hBrest : bindsAt rest b' name := by
        obtain ⟨s, hs, hb⟩ := hB
        exact ⟨s, by simpa using hs, hb⟩
      cases a with
      | zero =>
        obtain ⟨s, hs, hb⟩ := hA
        simp at hs
        subst hs
        obtain ⟨c', r', hd', hc', hname⟩ := hb
        simp only [dupScan, hd'] at hscan
        rw [if_pos hc'] at hscan
        cases hseen : mapGet seen (String.mk r') with
        | some first => rw [hseen] at hscan; cases hscan
        | none =>
          rw [hseen] at hscan
          have habs := dupScan_none_absent rest (i + 1)
            (mapSet seen (String.mk r') i) hscan b' name hBrest
          rw [hname] at habs
          rw [mapGet_set_self] at habs
          cases habs
      | succ a' =>
        have hArest : bindsAt rest a' name := by
          obtain ⟨s, hs, hb⟩ := hA
          exact ⟨s, by simpa using hs, hb⟩
        rcases hdata : seg.data with _ | ⟨c, nm⟩
        · simp only [dupScan, hdata] at hscan
          exact ih (i + 1) seen hscan a' b' name (by omega) hArest hBrest
        · simp only [dupScan, hdata] at hscan
          by_cases hc : c = ':' ∨ c = '*'
          · rw [if_pos hc] at hscan
            cases hseen : mapGet seen (String.mk nm) with
            | some first => rw [hseen] at hscan; cases hscan
            | none =>
              rw [hseen] at hscan
              exact ih (i + 1) (mapSet seen (String.mk nm) i) hscan a' b'
                name (by omega) hArest hBrest
          · rw [if_neg hc] at hscan
            exact ih (i + 1) seen hscan a' b' name (by omega) hArest hBrest

/-- C2: a pattern in which two Param/Wildcard segments bind the same
name is rejected by `AddRoute` for every method, handler and
middleware list (and `handle` propagates the error, on which the
source panics at construction time, before any request is served).
Concretely `/users/:id/posts/:id` fails with a message identifying
`id`, and `/files/:path/*path` (a Param and a Wildcard sharing a name)
fails identifying `path`. -/
theorem duplicate_param_rejection :
    (∀ (H M : Type) (t : Tree H M) (method path : String) (handler : H)
      (mw : List M) (a b : Nat) (name : String),
      a < b →
      bindsAt (splitSlash (trimSlashes path)) a name →
      bindsAt (splitSlash (trimSlashes path)) b name →
      ∃ e, t.addRoute method path handler mw = Except.error e) ∧
    (∀ (H M : Type) (r : Rtr H M) (method path : String) (handler : H)
      (nm : String) (mw : List M) (e : String),
      r.tree.addRoute method path handler mw = Except.error e →
      handle r method path handler nm mw = Except.error e) ∧
    (∀ (h : Nat) (mw : List Nat),
      Tree.addRoute Tree.new "GET" "/users/:id/posts/:id" h mw
        = Except.error (dupMsg "id" "GET" "users/:id/posts/:id" 1 3)) ∧
    (∀ (h : Nat) (mw : List Nat),
      Tree.addRoute Tree.new "GET" "/files/:path/*path" h mw
        = Except.error (dupMsg "path" "GET" "files/:path/*path" 1 2)) := by
  refine ⟨?_, ?_, fun h mw => rfl, fun h mw => rfl⟩
  · intro H M t method path handler mw a b name hab hA hB
    by_cases hsl : path.data.head? = some '/'
    · by_cases hp : path = "/"
      · exfalso
        rw [hp] at hB
        obtain ⟨s, hs, _⟩ := hB
        have hone : splitSlash (trimSlashes "/") = [""] := rfl
        rw [hone] at hs
        cases b with
        | zero => omega
        | succ b' => simp at hs
      · cases hscan : dupScan (splitSlash (trimSlashes path)) 0 [] with
        | some d =>
          refine ⟨dupMsg d.1 method (trimSlashes path) d.2.1 d.2.2, ?_⟩
          simp [Tree.addRoute, hsl, hp, hscan]
        | none =>
          exact absurd (dupScan_none_no_dup _ 0 [] hscan a b name hab hA hB)
            (by simp)
    · exact ⟨"invalid route path \"" ++ path ++ "\" for " ++ method ++
        ": path must begin with '/'", by rw [Tree.addRoute, if_pos hsl]⟩
  · intro H M r method path handler nm mw e herr
    rw [handle, herr]

/-- C2 witness: the general rejection theorem applied to
`/users/:id/posts/:id`, whose segments 1 and 3 both bind `id`. -/
theorem duplicate_param_rejection_witness :
    ∃ e, Tree.addRoute (Tree.new (H := Nat) (M := Nat)) "GET"
        "/users/:id/posts/:id" 0 [] = Except.error e :=
  duplicate_param_rejection.1 Nat Nat Tree.new "GET" "/users/:id/posts/:id"
    0 [] 1 3 "id" (by decide)
    ⟨":id", rfl, ':', ['i', 'd'], rfl, Or.inl rfl, rfl⟩
    ⟨":id", rfl, ':', ['i', 'd'], rfl, Or.inl rfl, rfl⟩

/-! ### C8 — named-route enumeration -/

theorem handle_ok_names {H M : Type} {r r' : Rtr H M} {method path : String}
    {handler : H} {nm : String} {mw : List M}
    (h : handle r method path handler nm mw = Except.ok r') :
    r'.names =
      (if (if nm = "" then generateName path method else nm) = ""
       then r.names
       else mapSet r.names (if nm = "" then generateName path method else nm)
         ⟨if nm = "" then generateName path method else nm, path, method⟩) := by
  rw [handle] at h
  cases haddr : Tree.addRoute r.tree method path handler mw with
  | error e => rw [haddr] at h; cases h
  | ok t =>
    rw [haddr] at h
    cases h
    rfl

theorem processAll_ok_split {H M : Type} :
    ∀ (xs ys : List (Registration H M)) (r rr : Rtr H M),
      processAll r (xs ++ ys) = Except.ok rr →
      ∃ r1, processAll r xs = Except.ok r1 ∧ processAll r1 ys = Except.ok rr := by
  intro xs
  induction xs with
  | nil => intro ys r rr h; exact ⟨r, rfl, h⟩
  | cons x xs ih =>
    intro ys r rr h
    rw [List.cons_append] at h
    cases hh : handle r x.method x.path x.handler x.name x.mw with
    | error e =>
      rw [processAll, hh] at h
      cases h
    | ok r1 =>
      rw [processAll, hh] at h
      obtain ⟨r2, h2, h3⟩ := ih ys r1 rr h
      exact ⟨r2, by rw [processAll, hh]; exact h2, h3⟩

theorem processAll_preserves {H M : Type} :
    ∀ (regs : List (Registration H M)) (r r' : Rtr H M) (n : String),
      processAll r regs = Except.ok r' →
      (∀ reg2 ∈ regs, effName reg2 ≠ n) →
      mapGet r'.names n = mapGet r.names n := by
  intro regs
  induction regs with
  | nil =>
    intro r r' n h _
    rw [processAll] at h
    cases h
    rfl
  | cons reg rest ih =>
    intro r r' n h hne
    cases hh : handle r reg.method reg.path reg.handler reg.name reg.mw with
    | error e => rw [processAll, hh] at h; cases h
    | ok r1 =>
      rw [processAll, hh] at h
      have h1 : mapGet r1.names n = mapGet r.names n := by
        rw [handle_ok_names hh]
        by_cases hz : (if reg.name = "" then generateName reg.path reg.method
            else reg.name) = ""
        · rw [if_pos hz]
        · rw [if_neg hz]
          have : effName reg ≠ n := hne reg (List.mem_cons_self reg rest)
          exact mapGet_set_ne r.names _ (fun hv => this (hv ▸ rfl))
      rw [ih r1 r' n h (fun reg2 hm => hne reg2 (List.mem_cons_of_mem _ hm)),
        h1]

/-- C8 counterexample: registering the single route `GET /:id` (whose
auto-generated name is empty, since every segment is a parameter)
succeeds and the route is matchable, yet the named-route enumeration is
empty — the registered route is missing from it, refuting the claimed
completeness. -/
theorem named_route_enumeration_missing :
    processAll (Rtr.new (H := Nat) (M := Nat)) [lonelyParamReg]
        = Except.ok lonelyParamRouter ∧
    lonelyParamRouter.names = [] ∧
    (lonelyParamRouter.tree.find "GET" "/abc").1 = some 0 :=
  ⟨rfl, rfl, rfl⟩

/-- C8 (amended): after any successful registration phase, the
enumeration contains the `(name, pattern, method)` triple of every
registration whose effective name — the explicit one, else the
auto-generated one — is nonempty and is not reused by any later
registration; routes whose auto-generated name is empty (the root
path, or a path all of whose segments are `:params`) are omitted, and
a later registration under the same name replaces the earlier entry
(the registry is a map keyed by name). -/
theorem named_route_enumeration_amended :
    ∀ (H M : Type) (pre post : List (Registration H M))
      (reg : Registration H M) (r : Rtr H M),
      processAll Rtr.new (pre ++ reg :: post) = Except.ok r →
      effName reg ≠ "" →
      (∀ reg2 ∈ post, effName reg2 ≠ effName reg) →
      mapGet r.names (effName reg) =
        some ⟨effName reg, reg.path, reg.method⟩ := by
  intro H M pre post reg r hall hne hpost
  obtain ⟨r0, _, hrest⟩ := processAll_ok_split pre (reg :: post) Rtr.new r
    hall
  cases hh : handle r0 reg.method reg.path reg.handler reg.name reg.mw with
  | error e => rw [processAll, hh] at hrest; cases hrest
  | ok r1 =>
    rw [processAll, hh] at hrest
    have h1 : mapGet r1.names (effName reg) =
        some ⟨effName reg, reg.path, reg.method⟩ := by
      rw [handle_ok_names hh]
      have heff : (if reg.name = "" then generateName reg.path reg.method
          else reg.name) = effName reg := rfl
      rw [heff, if_neg hne]
      exact mapGet_set_self r0.names (effName reg) _
    rw [processAll_preserves post r1 r (effName reg) hrest hpost, h1]

/-- C8 witness: the amended enumeration claim applied to the single
registration `GET /users`, filed under its auto-generated name. -/
theorem named_route_enumeration_amended_witness :
    mapGet usersRouter.names (effName usersReg)
      = some ⟨effName usersReg, "/users", "GET"⟩ :=
  named_route_enumeration_amended Nat Nat [] [] usersReg usersRouter rfl
    (by decide) (fun reg2 hm => absurd hm (List.not_mem_nil reg2))

/-! ### C10 — slash normalization -/

theorem string_data_inj {s t : String} (h : s.data = t.data) : s = t := by
  cases s
  cases t
  cases h
  rfl

theorem head?_of_front {α : Type} {t y : List α} (h : t <+: y)
    (hne : t ≠ []) : t.head? = y.head? := by
  obtain ⟨u, rfl⟩ := h
  cases t with
  | nil => exact absurd rfl hne
  | cons a t' => rfl

theorem dropWhile_slash_head (l : List Char) :
    (l.dropWhile (· = '/')).head? ≠ some '/' := by
  induction l with
  | nil => simp
  | cons c cs ih =>
    by_cases hc : c = '/'
    · simpa [List.dropWhile_cons, hc] using ih
    · simp [List.dropWhile_cons, hc]

theorem dropWhile_slash_eq_self {l : List Char}
    (h : l.head? ≠ some '/') : l.dropWhile (· = '/') = l := by
  cases l with
  | nil => rfl
  | cons a l' =>
    have ha : ¬ (a = '/') := fun hh => h (by simp [hh])
    simp [List.dropWhile_cons, ha]

theorem trimSlashes_data (s : String) :
    (trimSlashes s).data =
      List.rdropWhile (· = '/') (s.data.dropWhile (· = '/')) := by
  simp [trimSlashes, List.rdropWhile]

theorem trimSlashes_head (s : String) :
    (trimSlashes s).data.head? ≠ some '/' := by
  rw [trimSlashes_data]
  rcases hre : List.rdropWhile (· = '/') (s.data.dropWhile (· = '/'))
    with _ | ⟨a, t'⟩
  · simp
  · have hpre := List.rdropWhile_prefix (· = '/')
      (s.data.dropWhile (· = '/'))
    rw [hre] at hpre
    rw [head?_of_front hpre (by simp)]
    exact dropWhile_slash_head s.data

theorem trimSlashes_ne_slash (s : String) : trimSlashes s ≠ "/" := by
  intro h
  have hd := trimSlashes_head s
  rw [h] at hd
  exact hd rfl

theorem trimSlashes_idem (s : String) :
    trimSlashes (trimSlashes s) = trimSlashes s := by
  apply string_data_inj
  rw [trimSlashes_data (trimSlashes s)]
  rw [dropWhile_slash_eq_self (trimSlashes_head s)]
  rw [trimSlashes_data s]
  rw [List.rdropWhile_idempotent]

/-- C10: lookup is insensitive to extra leading/trailing slashes — for
any path containing a non-slash character, `Find` on the path and on
its slash-stripped form agree (handler, params and middleware alike) —
and registration trims the pattern before inserting, so two patterns
with a non-slash character, a leading `/`, and equal slash-stripped
forms (such as `/users/` and `/users`) produce identical `AddRoute`
results: the same trie and the same stored pattern string. -/
theorem slash_normalization :
    (∀ (H M : Type) (t : Tree H M) (m p : String),
      hasNonSlash p = true →
      t.find m p = t.find m (trimSlashes p)) ∧
    (∀ (H M : Type) (t : Tree H M) (m p1 p2 : String) (h : H)
      (mw : List M),
      hasNonSlash p1 = true → hasNonSlash p2 = true →
      p1.data.head? = some '/' → p2.data.head? = some '/' →
      trimSlashes p1 = trimSlashes p2 →
      t.addRoute m p1 h mw = t.addRoute m p2 h mw) := by
  constructor
  · intro H M t m p hns
    have hp : p ≠ "/" := by
      intro h
      rw [h] at hns
      exact absurd hns (by decide)
    have hq : trimSlashes p ≠ "/" := trimSlashes_ne_slash p
    cases hroot : mapGet t.roots m with
    | none => simp only [Tree.find, hroot]
    | some root =>
      simp only [Tree.find, hroot]
      rw [if_neg hp, if_neg hq, trimSlashes_idem]
  · intro H M t m p1 p2 h mw hns1 hns2 hh1 hh2 htrim
    have hp1 : p1 ≠ "/" := by
      intro hx
      rw [hx] at hns1
      exact absurd hns1 (by decide)
    have hp2 : p2 ≠ "/" := by
      intro hx
      rw [hx] at hns2
      exact absurd hns2 (by decide)
    rw [Tree.addRoute, Tree.addRoute, if_neg (not_not_intro hh1),
      if_neg (not_not_intro hh2), if_neg hp1, if_neg hp2, htrim]

/-- C10 witness: lookup of `//users/` equals lookup of its stripped
form, and registering `/users/` equals registering `/users`. -/
theorem slash_normalization_witness :
    ((regOk (Tree.new (H := Nat) (M := Nat)) "GET" "/users" 3 []).find
        "GET" "//users/"
      = (regOk (Tree.new (H := Nat) (M := Nat)) "GET" "/users" 3 []).find
        "GET" (trimSlashes "//users/")) ∧
    (Tree.addRoute (Tree.new (H := Nat) (M := Nat)) "GET" "/users/" 3 []
      = Tree.addRoute Tree.new "GET" "/users" 3 []) :=
  ⟨slash_normalization.1 Nat Nat _ "GET" "//users/" (by decide),
   slash_normalization.2 Nat Nat Tree.new "GET" "/users/" "/users" 3 []
     (by decide) (by decide) (by decide) (by decide) (by decide)⟩

end GoRouter
